import Mathlib

/-
Verification of the task-execution core of the `chocolates` thread pool
(`src/thread_pool/callback.rs`): Task, Runner with its bounded spin loop,
Execution Handle, Remote handle, RunnerFactory and the pool facade.

Shallow embedding notes.
* The backing queue / pool context lives in the parent module
  (`thread_pool/mod.rs`), which is not part of the sources here; it is
  modelled from the spec as a list of scheduled units, with `spawn`
  appending one unit.
* A Rust `FnMut(&mut Handle)` closure mutates its captured environment and
  the handle; it is embedded as a function `sigma → Handle τ → sigma × Handle τ`
  with the captured environment `sigma` threaded explicitly.  A
  `FnOnce(&mut Handle)` closure is consumed on its single call; its captures
  are baked into the function value, so it is `Handle τ → Handle τ`.
* The queue element type `G::Task` (a `T : AsMut<Task<G>>`) is an abstract
  type `τ`; the conversion from a `Task` back to the stored queue element,
  implicit in Rust because the runner pushes the very value it was handed,
  is the explicit parameter `pack : Task sigma τ → τ`.
* The Rust spin loop `loop { ... }` has no a-priori bound, so the
  embedding is fuel-indexed: `spinLoop` takes a fuel argument and reports
  `spinning` when fuel runs out while the source loop would keep going;
  theorems quantify over sufficient fuel.  `spinLoop` idealizes the
  `usize` counter `tried_times` as an unbounded Nat, which agrees with the
  machine integer on every run whose counter stays below the word modulus
  (any budget between 1 and the modulus); `spinLoopUsize` makes the width
  explicit — the increment wraps modulo the word modulus `M`, the
  release-build overflow semantics — which matters at budget 0, where
  only the wrap ends the loop.
* `spinLoop` additionally returns the list of (captured state, handle)
  pairs at which the closure is invoked — ghost instrumentation exposing
  the invocation count and the flag value seen by each invocation.
-/

namespace Callback

/-- Modelled from the spec: the pool context of the parent module
(`thread_pool/mod.rs`, not among the sources), reduced to its interface
boundary — the backing queue of scheduled units, where `spawn`
unconditionally enqueues one unit. -/
structure PoolContext (τ : Type) where
  queue : List τ

/-- Modelled from the spec: `PoolContext::spawn` pushes one unit into the
backing queue. -/
def PoolContext.spawn {τ : Type} (ctx : PoolContext τ) (t : τ) : PoolContext τ :=
  { queue := ctx.queue ++ [t] }

/-- the type `Handle`: the execution handle handed to a running closure —
a mutable borrow of the pool context plus the rerun flag. -/
structure Handle (τ : Type) where
  ctx : PoolContext τ
  rerun : Bool

/-- Source `Handle::rerun`: sets the rerun flag of the handle (primed because the
field is already called `rerun`). -/
def Handle.rerun' {τ : Type} (h : Handle τ) : Handle τ :=
  { h with rerun := true }

/-- Source `Task<G>`: the schedulable unit.  `Once` holds a single-use closure in
an optional slot; `Mut` holds a repeatable closure together with its
mutable captured environment. -/
inductive Task (σ τ : Type) where
  | Once (r : Option (Handle τ → Handle τ))
  | Mut (f : σ → Handle τ → σ × Handle τ) (st : σ)

/-- Source `Handle::spawn_once`: wrap the closure as a `Once` task in a filled
slot and push it through the bound pool context. -/
def Handle.spawn_once {σ τ : Type} (h : Handle (Task σ τ))
    (t : Handle τ → Handle τ) : Handle (Task σ τ) :=
  { h with ctx := h.ctx.spawn (Task.Once (some t)) }

/-- Source `Handle::spawn_mut`: wrap the closure (with its captured environment)
as a `Mut` task and push it through the bound pool context. -/
def Handle.spawn_mut {σ τ : Type} (h : Handle (Task σ τ))
    (f : σ → Handle τ → σ × Handle τ) (st : σ) : Handle (Task σ τ) :=
  { h with ctx := h.ctx.spawn (Task.Mut f st) }

/-- Modelled from the spec: the parent module type `Remote<G>` (not among the
sources) — a thread-portable capability to push units into the backing
queue of the pool. -/
structure ParentRemote (τ : Type) where
  ctx : PoolContext τ

/-- Modelled from the spec: pushing through the parent module type remote
capability enqueues into the backing queue. -/
def ParentRemote.spawn {τ : Type} (r : ParentRemote τ) (t : τ) : ParentRemote τ :=
  { ctx := r.ctx.spawn t }

/-- Modelled from the spec: `PoolContext::remote` hands out the push
capability of the queue. -/
def PoolContext.remote {τ : Type} (ctx : PoolContext τ) : ParentRemote τ :=
  { ctx := ctx }

/-- Source `Remote<G>` of the callback module: wraps the parent module type remote. -/
structure Remote (τ : Type) where
  remote : ParentRemote τ

/-- Source `Remote::spawn_once`. -/
def Remote.spawn_once {σ τ : Type} (r : Remote (Task σ τ))
    (t : Handle τ → Handle τ) : Remote (Task σ τ) :=
  { remote := r.remote.spawn (Task.Once (some t)) }

/-- Source `Remote::spawn_mut`. -/
def Remote.spawn_mut {σ τ : Type} (r : Remote (Task σ τ))
    (f : σ → Handle τ → σ × Handle τ) (st : σ) : Remote (Task σ τ) :=
  { remote := r.remote.spawn (Task.Mut f st) }

/-- Source `Handle::to_owned`: detach a Remote from the current execution handle. -/
def Handle.to_owned {τ : Type} (h : Handle τ) : Remote τ :=
  { remote := h.ctx.remote }

/-- Modelled from the spec: the parent module type `ThreadPool<G>` (not among
the sources), reduced to the backing queue it spawns into. -/
structure ThreadPool (τ : Type) where
  global : PoolContext τ

/-- Modelled from the spec: `ThreadPool::spawn` pushes a unit into the
backing queue of the pool. -/
def ThreadPool.spawn {τ : Type} (p : ThreadPool τ) (t : τ) : ThreadPool τ :=
  { global := p.global.spawn t }

/-- Pool facade `ThreadPool::spawn_once` (from `callback.rs`). -/
def ThreadPool.spawn_once {σ τ : Type} (p : ThreadPool (Task σ τ))
    (t : Handle τ → Handle τ) : ThreadPool (Task σ τ) :=
  p.spawn (Task.Once (some t))

/-- Pool facade `ThreadPool::spawn_mut` (from `callback.rs`). -/
def ThreadPool.spawn_mut {σ τ : Type} (p : ThreadPool (Task σ τ))
    (f : σ → Handle τ → σ × Handle τ) (st : σ) : ThreadPool (Task σ τ) :=
  p.spawn (Task.Mut f st)

/-- Source `Runner<G>`: per-worker driver carrying the spin budget. -/
structure Runner where
  max_inplace_spin : Nat

/-- Result of the `Task::Mut` spin loop of `Runner::handle`:
`done` — the closure did not request a rerun (`return true` path);
`yielded` — the budget was exhausted with a rerun still requested
(`break` path); `spinning` — the fuel ran out while the source loop would
keep iterating. -/
inductive LoopResult (σ τ : Type) where
  | done (st : σ) (h : Handle τ)
  | yielded (st : σ) (h : Handle τ)
  | spinning (st : σ) (h : Handle τ)

/-- The spin loop of `Runner::handle` for a `Task::Mut`, transcribed from
the source: invoke the closure; if no rerun was requested, finish (`done`);
otherwise clear the flag, bump `tried_times` and either `break` (`yielded`)
when the budget is hit or loop.  Fuel-indexed; also returns the list of
(state, handle) pairs the closure is invoked at.  The `tried_times`
counter is idealized as an unbounded Nat here; it coincides with the
source `usize` on every run whose counter stays below the word modulus
(in particular for all budgets between 1 and the modulus), and
`spinLoopUsize` below models the machine width explicitly. -/
def spinLoop {σ τ : Type} (f : σ → Handle τ → σ × Handle τ) (max : Nat) :
    Nat → Nat → σ → Handle τ → List (σ × Handle τ) × LoopResult σ τ
  | 0, _, st, h => ([], LoopResult.spinning st h)
  | fuel + 1, tried, st, h =>
    let r := f st h
    if r.2.rerun = false then
      ([(st, h)], LoopResult.done r.1 r.2)
    else
      let h2 : Handle τ := { r.2 with rerun := false }
      if tried + 1 = max then
        ([(st, h)], LoopResult.yielded r.1 h2)
      else
        let rest := spinLoop f max fuel (tried + 1) r.1 h2
        ((st, h) :: rest.1, rest.2)

/-- Outcome of `Runner::handle`: normal return (the Boolean, the final
pool context and the final value of the task — which the source drops or
re-enqueues), the `unwrap` panic on an empty `Once` slot, or fuel
exhaustion. -/
inductive HandleResult (σ τ : Type) where
  | ret (b : Bool) (ctx : PoolContext τ) (task : Task σ τ)
  | panicked (ctx : PoolContext τ)
  | outOfFuel

/-- Source `Runner::handle`, transcribed from the source.  A fresh handle with a
cleared rerun flag is built from the context; a `Mut` task runs the spin
loop and, on budget exhaustion, is pushed back via `ctx.spawn` before
returning `false`; a filled `Once` slot is taken and invoked once,
returning `true`; an empty `Once` slot panics on `unwrap`. -/
def Runner.handle {σ τ : Type} (self : Runner) (pack : Task σ τ → τ)
    (ctx : PoolContext τ) (task : Task σ τ) (fuel : Nat) : HandleResult σ τ :=
  match task with
  | Task.Mut f st =>
    match (spinLoop f self.max_inplace_spin fuel 0 st { ctx := ctx, rerun := false }).2 with
    | LoopResult.done st2 h2 => HandleResult.ret true h2.ctx (Task.Mut f st2)
    | LoopResult.yielded st2 h2 =>
        HandleResult.ret false (h2.ctx.spawn (pack (Task.Mut f st2))) (Task.Mut f st2)
    | LoopResult.spinning _ _ => HandleResult.outOfFuel
  | Task.Once none => HandleResult.panicked ctx
  | Task.Once (some r) =>
      HandleResult.ret true (r { ctx := ctx, rerun := false }).ctx (Task.Once none)

/-- The spin loop of `Runner::handle` with the machine width of the
`tried_times` counter made explicit: in the source `tried_times` is a
`usize`, so in a release build the increment wraps modulo the word
modulus `M` (`2 ^ 64` on a 64-bit target).  Identical to `spinLoop`,
whose unbounded counter is adequate only while `tried_times` stays below
`M` — which holds in every run with budget `1 ≤ max < M`, but not at
budget 0, where the wrap is what eventually satisfies the exit
comparison. -/
def spinLoopUsize {σ τ : Type} (M : Nat) (f : σ → Handle τ → σ × Handle τ)
    (max : Nat) :
    Nat → Nat → σ → Handle τ → List (σ × Handle τ) × LoopResult σ τ
  | 0, _, st, h => ([], LoopResult.spinning st h)
  | fuel + 1, tried, st, h =>
    let r := f st h
    if r.2.rerun = false then
      ([(st, h)], LoopResult.done r.1 r.2)
    else
      let h2 : Handle τ := { r.2 with rerun := false }
      if (tried + 1) % M = max then
        ([(st, h)], LoopResult.yielded r.1 h2)
      else
        let rest := spinLoopUsize M f max fuel ((tried + 1) % M) r.1 h2
        ((st, h) :: rest.1, rest.2)

/-- Source `Runner::handle` over the machine-width spin loop: the same
transcription as `Runner.handle`, with the `usize` wrap of `tried_times`
modelled by the word modulus `M` (release-build overflow semantics).  The
two agree on every run whose counter stays below `M`. -/
def Runner.handleUsize {σ τ : Type} (M : Nat) (self : Runner)
    (pack : Task σ τ → τ) (ctx : PoolContext τ) (task : Task σ τ)
    (fuel : Nat) : HandleResult σ τ :=
  match task with
  | Task.Mut f st =>
    match (spinLoopUsize M f self.max_inplace_spin fuel 0 st
        { ctx := ctx, rerun := false }).2 with
    | LoopResult.done st2 h2 => HandleResult.ret true h2.ctx (Task.Mut f st2)
    | LoopResult.yielded st2 h2 =>
        HandleResult.ret false (h2.ctx.spawn (pack (Task.Mut f st2)))
          (Task.Mut f st2)
    | LoopResult.spinning _ _ => HandleResult.outOfFuel
  | Task.Once none => HandleResult.panicked ctx
  | Task.Once (some r) =>
      HandleResult.ret true (r { ctx := ctx, rerun := false }).ctx (Task.Once none)

/-- Source `RunnerFactory<G>`. -/
structure RunnerFactory where
  max_inplace_spin : Nat

/-- Source `RunnerFactory::new`: default spin budget 4. -/
def RunnerFactory.new : RunnerFactory :=
  { max_inplace_spin := 4 }

/-- Source `RunnerFactory::set_max_inplace_spin`. -/
def RunnerFactory.set_max_inplace_spin (fa : RunnerFactory) (count : Nat) : RunnerFactory :=
  { fa with max_inplace_spin := count }

/-- Source `RunnerFactory::produce`: a Runner carrying the currently configured
budget. -/
def RunnerFactory.produce (fa : RunnerFactory) : Runner :=
  { max_inplace_spin := fa.max_inplace_spin }

/-- Pure iteration of a `Mut` closure, clearing the rerun flag between
invocations — the reference behaviour the spin loop is compared with. -/
def iterRun {σ τ : Type} (f : σ → Handle τ → σ × Handle τ) :
    Nat → σ → Handle τ → σ × Handle τ
  | 0, st, h => (st, h)
  | n + 1, st, h =>
    let r := f st h
    iterRun f n r.1 { r.2 with rerun := false }

/-- The invocation inputs of `iterRun`: the (state, handle) pairs the
closure is applied to during `n` flag-clearing iterations. -/
def iterInputs {σ τ : Type} (f : σ → Handle τ → σ × Handle τ) :
    Nat → σ → Handle τ → List (σ × Handle τ)
  | 0, _, _ => []
  | n + 1, st, h =>
    let r := f st h
    (st, h) :: iterInputs f n r.1 { r.2 with rerun := false }

theorem iterInputs_length {σ τ : Type} (f : σ → Handle τ → σ × Handle τ) :
    ∀ (k : Nat) (st : σ) (h : Handle τ), (iterInputs f k st h).length = k := by
  intro k
  induction k with
  | zero => intro st h; rfl
  | succ k ih =>
    intro st h
    simp only [iterInputs, List.length_cons, ih]

theorem spinLoop_always_rerun {σ τ : Type} (f : σ → Handle τ → σ × Handle τ)
    (hr : ∀ st h, (f st h).2.rerun = true) :
    ∀ (k fuel tried : Nat) (st : σ) (h : Handle τ), 1 ≤ k → k ≤ fuel →
      spinLoop f (tried + k) fuel tried st h
        = (iterInputs f k st h,
            LoopResult.yielded (iterRun f k st h).1 (iterRun f k st h).2) := by
  intro k
  induction k with
  | zero => exact fun fuel tried st h hk _ => absurd hk (by omega)
  | succ k ih =>
    intro fuel tried st h _ hfuel
    obtain ⟨fu, rfl⟩ : ∃ fu, fuel = fu + 1 := ⟨fuel - 1, by omega⟩
    have hrne : ¬ (f st h).2.rerun = false := by
      rw [hr st h]; intro hc; cases hc
    by_cases hk0 : k = 0
    · subst hk0
      simp only [spinLoop]
      rw [if_neg hrne, if_pos trivial]
      simp only [iterInputs, iterRun]
    · have hne' : ¬ tried + 1 = tried + (k + 1) := by omega
      have hstep : tried + (k + 1) = tried + 1 + k := by omega
      simp only [spinLoop]
      rw [if_neg hrne, if_neg hne', hstep,
        ih fu (tried + 1) (f st h).1 { (f st h).2 with rerun := false }
          (by omega) (by omega)]
      simp only [iterInputs, iterRun]

theorem spinLoop_inputs_flag_clear {σ τ : Type}
    (f : σ → Handle τ → σ × Handle τ) (max : Nat) :
    ∀ (fuel tried : Nat) (st : σ) (h : Handle τ), h.rerun = false →
      ∀ p ∈ (spinLoop f max fuel tried st h).1, (p.2).rerun = false := by
  intro fuel
  induction fuel with
  | zero => intro tried st h _ p hp; simp only [spinLoop] at hp; simp at hp
  | succ fuel ih =>
    intro tried st h hh p hp
    simp only [spinLoop] at hp
    by_cases hrr : (f st h).2.rerun = false
    · rw [if_pos hrr] at hp
      simp only [List.mem_singleton] at hp
      subst hp; exact hh
    · rw [if_neg hrr] at hp
      by_cases hb : tried + 1 = max
      · rw [if_pos hb] at hp
        simp only [List.mem_singleton] at hp
        subst hp; exact hh
      · rw [if_neg hb] at hp
        simp only [List.mem_cons] at hp
        rcases hp with hp | hp
        · subst hp; exact hh
        · exact ih (tried + 1) (f st h).1
            { (f st h).2 with rerun := false } rfl p hp

/-- The pool context accumulated by the closure invocations of one
`Runner::handle` call alone — i.e. before the re-enqueue the runner itself performs on
the task, which the source performs only on the `return false` path. -/
def Runner.ctxAfterInvocations {σ τ : Type} (self : Runner)
    (ctx : PoolContext τ) (task : Task σ τ) (fuel : Nat) : PoolContext τ :=
  match task with
  | Task.Once none => ctx
  | Task.Once (some r) => (r { ctx := ctx, rerun := false }).ctx
  | Task.Mut f st =>
    match (spinLoop f self.max_inplace_spin fuel 0 st { ctx := ctx, rerun := false }).2 with
    | LoopResult.done _ h2 => h2.ctx
    | LoopResult.yielded _ h2 => h2.ctx
    | LoopResult.spinning _ h2 => h2.ctx

/-- Claim C1: for a run-repeatable task whose closure requests a rerun on
every invocation, with spin budget `B ≥ 1` (and enough fuel to cover the
source loop), `handle` invokes the closure exactly `B` times in place
(final state and context are those of `B` flag-clearing iterations; the
invocation log has length `B`), pushes the task back exactly once via the
spawn operation of the pool context, and returns `false`. -/
theorem C1_mut_always_rerun_exhausts_budget {σ τ : Type}
    (f : σ → Handle τ → σ × Handle τ) (pack : Task σ τ → τ)
    (ctx : PoolContext τ) (st : σ) (B fuel : Nat)
    (hr : ∀ st h, (f st h).2.rerun = true) (hB : 1 ≤ B) (hfuel : B ≤ fuel) :
    Runner.handle { max_inplace_spin := B } pack ctx (Task.Mut f st) fuel
      = HandleResult.ret false
          (((iterRun f B st { ctx := ctx, rerun := false }).2.ctx).spawn
            (pack (Task.Mut f
              (iterRun f B st { ctx := ctx, rerun := false }).1)))
          (Task.Mut f (iterRun f B st { ctx := ctx, rerun := false }).1)
    ∧ (spinLoop f B fuel 0 st { ctx := ctx, rerun := false }).1.length = B := by
  have hspin := spinLoop_always_rerun f hr B fuel 0 st
    { ctx := ctx, rerun := false } hB hfuel
  rw [Nat.zero_add] at hspin
  constructor
  · simp only [Runner.handle, hspin]
  · rw [hspin]
    exact iterInputs_length f B st { ctx := ctx, rerun := false }

/-- Claim C4: for a run-repeatable task whose closure does not request a
rerun on its first invocation, `handle` invokes the closure exactly once
(the invocation log is the singleton of the initial state and fresh
handle), performs no re-enqueue (the final context is exactly the one the
single invocation produced), and returns `true`. -/
theorem C4_mut_no_rerun_single_invocation {σ τ : Type}
    (f : σ → Handle τ → σ × Handle τ) (pack : Task σ τ → τ)
    (ctx : PoolContext τ) (st : σ) (self : Runner) (fuel : Nat)
    (hfuel : 1 ≤ fuel)
    (hnr : (f st { ctx := ctx, rerun := false }).2.rerun = false) :
    Runner.handle self pack ctx (Task.Mut f st) fuel
      = HandleResult.ret true (f st { ctx := ctx, rerun := false }).2.ctx
          (Task.Mut f (f st { ctx := ctx, rerun := false }).1)
    ∧ (spinLoop f self.max_inplace_spin fuel 0 st { ctx := ctx, rerun := false }).1
        = [(st, { ctx := ctx, rerun := false })] := by
  obtain ⟨fu, rfl⟩ : ∃ fu, fuel = fu + 1 := ⟨fuel - 1, by omega⟩
  have hspin : spinLoop f self.max_inplace_spin (fu + 1) 0 st
      { ctx := ctx, rerun := false }
      = ([(st, { ctx := ctx, rerun := false })],
          LoopResult.done (f st { ctx := ctx, rerun := false }).1
            (f st { ctx := ctx, rerun := false }).2) := by
    simp only [spinLoop]
    rw [if_pos hnr]
  exact ⟨by simp only [Runner.handle, hspin], by rw [hspin]⟩

/-- The counter closure of the scenario of the spec: bump the counter, and
request a rerun while it is still below 10. -/
def counterClosure : Nat → Handle Nat → Nat × Handle Nat :=
  fun c h => if c + 1 < 10 then (c + 1, h.rerun') else (c + 1, h)

/-- A concrete queue-element encoding for the scenario: a `Mut` task is
stored as its counter value. -/
def counterPack : Task Nat Nat → Nat :=
  fun t =>
    match t with
    | Task.Once _ => 0
    | Task.Mut _ st => st

/-- Claim C5: for the counter closure (increment, rerun while below 10)
under budget 4: the first `handle` call performs 4 invocations, re-pushes
the task (counter 4) and returns `false`; the second performs 4 more,
re-pushes (counter 8) and returns `false`; the third performs 2, completes
with the counter at exactly 10 and returns `true` — so the task is pushed
back exactly twice overall. -/
theorem C5_counter_scenario :
    Runner.handle { max_inplace_spin := 4 } counterPack { queue := [] }
        (Task.Mut counterClosure 0) 16
      = HandleResult.ret false { queue := [4] } (Task.Mut counterClosure 4)
    ∧ Runner.handle { max_inplace_spin := 4 } counterPack { queue := [] }
        (Task.Mut counterClosure 4) 16
      = HandleResult.ret false { queue := [8] } (Task.Mut counterClosure 8)
    ∧ Runner.handle { max_inplace_spin := 4 } counterPack { queue := [] }
        (Task.Mut counterClosure 8) 16
      = HandleResult.ret true { queue := [] } (Task.Mut counterClosure 10)
    ∧ (spinLoop counterClosure 4 16 0 0
        { ctx := { queue := [] }, rerun := false }).1.length = 4
    ∧ (spinLoop counterClosure 4 16 0 4
        { ctx := { queue := [] }, rerun := false }).1.length = 4
    ∧ (spinLoop counterClosure 4 16 0 8
        { ctx := { queue := [] }, rerun := false }).1.length = 2 :=
  ⟨rfl, rfl, rfl, rfl, rfl, rfl⟩

/-- Claim C7: within one `Runner::handle` call on a run-repeatable task,
the rerun flag is false at every invocation of the closure — the handle
starts with the flag cleared and the loop clears it again before every
further in-place invocation. -/
theorem C7_flag_false_before_each_invocation {σ τ : Type}
    (f : σ → Handle τ → σ × Handle τ) (self : Runner) (ctx : PoolContext τ)
    (st : σ) (fuel : Nat) (p : σ × Handle τ)
    (hp : p ∈ (spinLoop f self.max_inplace_spin fuel 0 st
        { ctx := ctx, rerun := false }).1) :
    (p.2).rerun = false :=
  spinLoop_inputs_flag_clear f self.max_inplace_spin fuel 0 st
    { ctx := ctx, rerun := false } rfl p hp

/-- Claim C9: whenever `Runner::handle` returns normally, a `true` result
means the final context is exactly the one accumulated by the closure
invocations (the runner re-enqueued nothing), and a `false` result means
it is that context with exactly one extra spawn — the handled task itself,
pushed back once. -/
theorem C9_repush_exactly_on_false {σ τ : Type} (self : Runner)
    (pack : Task σ τ → τ) (ctx : PoolContext τ) (task : Task σ τ)
    (fuel : Nat) (b : Bool) (ctx2 : PoolContext τ) (tk : Task σ τ)
    (hret : Runner.handle self pack ctx task fuel
      = HandleResult.ret b ctx2 tk) :
    (b = true → ctx2 = self.ctxAfterInvocations ctx task fuel)
    ∧ (b = false →
        ctx2 = (self.ctxAfterInvocations ctx task fuel).spawn (pack tk)) := by
  cases task with
  | Once r =>
    cases r with
    | none =>
      simp only [Runner.handle] at hret
      exact HandleResult.noConfusion hret
    | some r =>
      simp only [Runner.handle, HandleResult.ret.injEq] at hret
      obtain ⟨hb, hc, ht⟩ := hret
      constructor
      · intro _; rw [← hc]; rfl
      · intro hfalse; rw [← hb] at hfalse; cases hfalse
  | Mut f st =>
    rcases hres : (spinLoop f self.max_inplace_spin fuel 0 st
        { ctx := ctx, rerun := false }).2 with ⟨st2, h2⟩ | ⟨st2, h2⟩ | ⟨st2, h2⟩
    · simp only [Runner.handle, hres, HandleResult.ret.injEq] at hret
      obtain ⟨hb, hc, ht⟩ := hret
      constructor
      · intro _
        rw [← hc]
        simp only [Runner.ctxAfterInvocations, hres]
      · intro hfalse; rw [← hb] at hfalse; cases hfalse
    · simp only [Runner.handle, hres, HandleResult.ret.injEq] at hret
      obtain ⟨hb, hc, ht⟩ := hret
      constructor
      · intro htrue; rw [← hb] at htrue; cases htrue
      · intro _
        rw [← hc, ← ht]
        simp only [Runner.ctxAfterInvocations, hres]
    · simp only [Runner.handle, hres] at hret
      exact HandleResult.noConfusion hret

theorem spinLoopUsize_budget0_always_rerun {σ τ : Type} (M : Nat)
    (f : σ → Handle τ → σ × Handle τ)
    (hr : ∀ st h, (f st h).2.rerun = true) :
    ∀ (k fuel tried : Nat) (st : σ) (h : Handle τ),
      tried + k = M → 1 ≤ k → k ≤ fuel →
      spinLoopUsize M f 0 fuel tried st h
        = (iterInputs f k st h,
            LoopResult.yielded (iterRun f k st h).1 (iterRun f k st h).2) := by
  intro k
  induction k with
  | zero => exact fun fuel tried st h _ hk _ => absurd hk (by omega)
  | succ k ih =>
    intro fuel tried st h hM _ hfuel
    obtain ⟨fu, rfl⟩ : ∃ fu, fuel = fu + 1 := ⟨fuel - 1, by omega⟩
    have hrne : ¬ (f st h).2.rerun = false := by
      rw [hr st h]; intro hc; cases hc
    by_cases hk0 : k = 0
    · subst hk0
      simp only [spinLoopUsize]
      rw [if_neg hrne, show tried + 1 = M from by omega, Nat.mod_self,
        if_pos rfl]
      simp only [iterInputs, iterRun]
    · have hmod : (tried + 1) % M = tried + 1 := Nat.mod_eq_of_lt (by omega)
      simp only [spinLoopUsize]
      rw [if_neg hrne, hmod, if_neg (by omega : ¬ tried + 1 = 0),
        ih fu (tried + 1) (f st h).1 { (f st h).2 with rerun := false }
          (by omega) (by omega) (by omega)]
      simp only [iterInputs, iterRun]

theorem handleUsize_budget0_always_rerun {σ τ : Type} (M : Nat)
    (f : σ → Handle τ → σ × Handle τ)
    (hr : ∀ st h, (f st h).2.rerun = true)
    (pack : Task σ τ → τ) (ctx : PoolContext τ) (st : σ) (fuel : Nat)
    (hM : 1 ≤ M) (hfuel : M ≤ fuel) :
    Runner.handleUsize M { max_inplace_spin := 0 } pack ctx (Task.Mut f st) fuel
      = HandleResult.ret false
          (((iterRun f M st { ctx := ctx, rerun := false }).2.ctx).spawn
            (pack (Task.Mut f
              (iterRun f M st { ctx := ctx, rerun := false }).1)))
          (Task.Mut f (iterRun f M st { ctx := ctx, rerun := false }).1) := by
  have hspin := spinLoopUsize_budget0_always_rerun M f hr M fuel 0 st
    { ctx := ctx, rerun := false } (by omega) (by omega) hfuel
  simp only [Runner.handleUsize, hspin]

theorem spinLoopUsize_no_spin {σ τ : Type} (M : Nat)
    (f : σ → Handle τ → σ × Handle τ) (B : Nat) (hBM : B < M) :
    ∀ (fuel tried : Nat) (st : σ) (h : Handle τ),
      tried < B → B - tried ≤ fuel →
      ∀ st2 h2,
        (spinLoopUsize M f B fuel tried st h).2 ≠ LoopResult.spinning st2 h2 := by
  intro fuel
  induction fuel with
  | zero => intro tried st h hlt hle; omega
  | succ fuel ih =>
    intro tried st h hlt hle st2 h2
    simp only [spinLoopUsize]
    by_cases hrr : (f st h).2.rerun = false
    · rw [if_pos hrr]; intro hc; cases hc
    · rw [if_neg hrr]
      have hmod : (tried + 1) % M = tried + 1 := Nat.mod_eq_of_lt (by omega)
      rw [hmod]
      by_cases hb : tried + 1 = B
      · rw [if_pos hb]; intro hc; cases hc
      · rw [if_neg hb]
        exact ih (tried + 1) (f st h).1
          { ctx := (f st h).2.ctx, rerun := false } (by omega) (by omega) st2 h2

theorem spinLoopUsize_inputs_length_le {σ τ : Type} (M : Nat)
    (f : σ → Handle τ → σ × Handle τ) (B : Nat) (hBM : B < M) :
    ∀ (fuel tried : Nat) (st : σ) (h : Handle τ), tried < B →
      (spinLoopUsize M f B fuel tried st h).1.length ≤ B - tried := by
  intro fuel
  induction fuel with
  | zero => intro tried st h hlt; simp only [spinLoopUsize, List.length_nil]; omega
  | succ fuel ih =>
    intro tried st h hlt
    simp only [spinLoopUsize]
    by_cases hrr : (f st h).2.rerun = false
    · rw [if_pos hrr]; simp only [List.length_singleton]; omega
    · rw [if_neg hrr]
      have hmod : (tried + 1) % M = tried + 1 := Nat.mod_eq_of_lt (by omega)
      rw [hmod]
      by_cases hb : tried + 1 = B
      · rw [if_pos hb]; simp only [List.length_singleton]; omega
      · rw [if_neg hb]
        simp only [List.length_cons]
        have := ih (tried + 1) (f st h).1
          { ctx := (f st h).2.ctx, rerun := false } (by omega)
        omega

/-- Claim C10 (amended): with the `usize` counter of the source modelled
at its machine width — word modulus `M`, `2 ^ 64` on a 64-bit target,
release-build wrapping semantics — spin budget 0 on an always-rerun task
does not loop forever: the wrapped increment first satisfies the exit
comparison at the `M`-th iteration, so `handle` performs exactly `M`
in-place invocations, re-enqueues the task once and returns `false`; and
for any representable budget `1 ≤ B < M` (with fuel covering it) `handle`
terminates after at most `B` invocations. -/
theorem C10_usize_budget_zero_wraps_pos_terminates {σ τ : Type}
    (pack : Task σ τ → τ) (M : Nat) (hM : 1 ≤ M) :
    (∀ f : σ → Handle τ → σ × Handle τ,
      (∀ st h, (f st h).2.rerun = true) →
      ∀ (ctx : PoolContext τ) (st : σ) (fuel : Nat), M ≤ fuel →
        Runner.handleUsize M { max_inplace_spin := 0 } pack ctx
            (Task.Mut f st) fuel
          = HandleResult.ret false
              (((iterRun f M st { ctx := ctx, rerun := false }).2.ctx).spawn
                (pack (Task.Mut f
                  (iterRun f M st { ctx := ctx, rerun := false }).1)))
              (Task.Mut f (iterRun f M st { ctx := ctx, rerun := false }).1)
          ∧ (spinLoopUsize M f 0 fuel 0 st
              { ctx := ctx, rerun := false }).1.length = M)
    ∧ (∀ (f : σ → Handle τ → σ × Handle τ) (B fuel : Nat),
        1 ≤ B → B < M → B ≤ fuel →
        ∀ (ctx : PoolContext τ) (st : σ),
          Runner.handleUsize M { max_inplace_spin := B } pack ctx
              (Task.Mut f st) fuel
            ≠ HandleResult.outOfFuel
          ∧ (spinLoopUsize M f B fuel 0 st
              { ctx := ctx, rerun := false }).1.length ≤ B) := by
  constructor
  · intro f hf ctx st fuel hfuel
    constructor
    · exact handleUsize_budget0_always_rerun M f hf pack ctx st fuel hM hfuel
    · rw [spinLoopUsize_budget0_always_rerun M f hf M fuel 0 st
        { ctx := ctx, rerun := false } (by omega) (by omega) hfuel]
      exact iterInputs_length f M st { ctx := ctx, rerun := false }
  · intro f B fuel hB hBM hfuel ctx st
    constructor
    · rcases hres : (spinLoopUsize M f B fuel 0 st
          { ctx := ctx, rerun := false }).2 with ⟨st2, h2⟩ | ⟨st2, h2⟩ | ⟨st2, h2⟩
      · simp only [Runner.handleUsize, hres]
        intro hc; cases hc
      · simp only [Runner.handleUsize, hres]
        intro hc; cases hc
      · exact absurd hres (spinLoopUsize_no_spin M f B hBM fuel 0 st
          { ctx := ctx, rerun := false } (by omega) (by omega) st2 h2)
    · have := spinLoopUsize_inputs_length_le M f B hBM fuel 0 st
        { ctx := ctx, rerun := false } (by omega)
      omega

/-- A closure that always requests a rerun (and counts its invocations). -/
def wAlways : Nat → Handle Nat → Nat × Handle Nat :=
  fun c h => (c + 1, h.rerun')

/-- A closure that never requests a rerun. -/
def wNever : Nat → Handle Nat → Nat × Handle Nat :=
  fun c h => (c, h)

/-- Witness for C1 at budget 2, fuel 3, on the always-rerun counter. -/
theorem C1_witness :
    Runner.handle { max_inplace_spin := 2 } counterPack { queue := [] }
        (Task.Mut wAlways 0) 3
      = HandleResult.ret false
          (((iterRun wAlways 2 0
              { ctx := { queue := [] }, rerun := false }).2.ctx).spawn
            (counterPack (Task.Mut wAlways
              (iterRun wAlways 2 0
                { ctx := { queue := [] }, rerun := false }).1)))
          (Task.Mut wAlways
            (iterRun wAlways 2 0 { ctx := { queue := [] }, rerun := false }).1)
    ∧ (spinLoop wAlways 2 3 0 0
        { ctx := { queue := [] }, rerun := false }).1.length = 2 :=
  C1_mut_always_rerun_exhausts_budget wAlways counterPack { queue := [] } 0 2 3
    (fun _ _ => rfl) (by omega) (by omega)

/-- Witness for C4 at budget 4, fuel 1, on a closure that never reruns. -/
theorem C4_witness :
    Runner.handle { max_inplace_spin := 4 } counterPack { queue := [] }
        (Task.Mut wNever 7) 1
      = HandleResult.ret true
          (wNever 7 { ctx := { queue := [] }, rerun := false }).2.ctx
          (Task.Mut wNever
            (wNever 7 { ctx := { queue := [] }, rerun := false }).1)
    ∧ (spinLoop wNever 4 1 0 7 { ctx := { queue := [] }, rerun := false }).1
        = [(7, { ctx := { queue := [] }, rerun := false })] :=
  C4_mut_no_rerun_single_invocation wNever counterPack { queue := [] } 7
    { max_inplace_spin := 4 } 1 (by omega) rfl

/-- Witness for C7: the single invocation input of a concrete run has a
cleared flag. -/
theorem C7_witness :
    ((7, ({ ctx := { queue := [] }, rerun := false } : Handle Nat))
        : Nat × Handle Nat).2.rerun = false :=
  C7_flag_false_before_each_invocation wNever { max_inplace_spin := 4 }
    { queue := [] } 7 1 (7, { ctx := { queue := [] }, rerun := false })
    (by rw [show (spinLoop wNever 4 1 0 7
        { ctx := { queue := [] }, rerun := false }).1
        = [(7, { ctx := { queue := [] }, rerun := false })] from rfl]
        exact List.mem_singleton.mpr rfl)

/-- Witness for C9 on a concrete completed run (budget 4, no rerun). -/
theorem C9_witness :
    (true = true →
      ({ queue := [] } : PoolContext Nat)
        = Runner.ctxAfterInvocations { max_inplace_spin := 4 } { queue := [] }
            (Task.Mut wNever 0) 1)
    ∧ (true = false →
      ({ queue := [] } : PoolContext Nat)
        = (Runner.ctxAfterInvocations { max_inplace_spin := 4 } { queue := [] }
            (Task.Mut wNever 0) 1).spawn
            (counterPack (Task.Mut wNever 0))) :=
  C9_repush_exactly_on_false { max_inplace_spin := 4 } counterPack
    { queue := [] } (Task.Mut wNever 0) 1 true { queue := [] }
    (Task.Mut wNever 0) rfl

theorem iterRun_wAlways :
    ∀ (k st : Nat) (ctx : PoolContext Nat),
      iterRun wAlways k st { ctx := ctx, rerun := false }
        = (st + k, { ctx := ctx, rerun := false }) := by
  intro k
  induction k with
  | zero => intro st ctx; rfl
  | succ k ih =>
    intro st ctx
    have h1 : iterRun wAlways (k + 1) st { ctx := ctx, rerun := false }
        = iterRun wAlways k (st + 1) { ctx := ctx, rerun := false } := rfl
    rw [h1, ih]
    congr 1
    omega

/-- Counterexample to claim C10 as stated: with the 64-bit word modulus
`2 ^ 64` of the `usize` counter made explicit, budget 0 on the
always-rerun counting closure does not spin forever — the wrapped
`tried_times` first equals the budget 0 at the `2 ^ 64`-th increment, so
`handle` performs `2 ^ 64` in-place invocations, re-enqueues the task
once (its invocation counter at `2 ^ 64`) and returns `false`: the exit
comparison IS eventually reached. -/
theorem C10_counterexample :
    Runner.handleUsize (2 ^ 64) { max_inplace_spin := 0 } counterPack
        { queue := [] } (Task.Mut wAlways 0) (2 ^ 64)
      = HandleResult.ret false { queue := [2 ^ 64] }
          (Task.Mut wAlways (2 ^ 64)) := by
  have h := handleUsize_budget0_always_rerun (2 ^ 64) wAlways
    (fun _ _ => rfl) counterPack { queue := [] } 0 (2 ^ 64)
    (by norm_num) (by omega)
  rw [iterRun_wAlways] at h
  simpa [PoolContext.spawn, counterPack] using h

/-- Witness for C10 (amended) at the small word modulus 2: budget 0
performs exactly 2 invocations, re-enqueues once and returns false;
budget 1 terminates within 1 invocation. -/
theorem C10_witness :
    ((Runner.handleUsize 2 { max_inplace_spin := 0 } counterPack
        { queue := [] } (Task.Mut wAlways 0) 2
      = HandleResult.ret false
          (((iterRun wAlways 2 0
              { ctx := { queue := [] }, rerun := false }).2.ctx).spawn
            (counterPack (Task.Mut wAlways
              (iterRun wAlways 2 0
                { ctx := { queue := [] }, rerun := false }).1)))
          (Task.Mut wAlways
            (iterRun wAlways 2 0 { ctx := { queue := [] }, rerun := false }).1)
      ∧ (spinLoopUsize 2 wAlways 0 2 0 0
          { ctx := { queue := [] }, rerun := false }).1.length = 2)
    ∧ (Runner.handleUsize 2 { max_inplace_spin := 1 } counterPack
          { queue := [] } (Task.Mut wAlways 0) 5
        ≠ HandleResult.outOfFuel
      ∧ (spinLoopUsize 2 wAlways 1 5 0 0
          { ctx := { queue := [] }, rerun := false }).1.length ≤ 1)) :=
  ⟨(C10_usize_budget_zero_wraps_pos_terminates counterPack 2 (by omega)).1
      wAlways (fun _ _ => rfl) { queue := [] } 0 2 (by omega),
    (C10_usize_budget_zero_wraps_pos_terminates counterPack 2 (by omega)).2
      wAlways 1 5 (by omega) (by omega) (by omega) { queue := [] } 0⟩

/-- Claim C2: for every run-once task whose slot still holds a closure,
`Runner::handle` takes the closure out of the slot and invokes it exactly
once on a fresh handle; any rerun request is ignored (no further
invocation, no re-enqueue of the task); the final context is exactly the
one the single invocation produced and the result is `true`. -/
theorem C2_once_filled_runs_exactly_once {σ τ : Type} (self : Runner)
    (pack : Task σ τ → τ) (ctx : PoolContext τ) (r : Handle τ → Handle τ)
    (fuel : Nat) :
    Runner.handle self pack ctx (Task.Once (some r)) fuel
      = HandleResult.ret true (r { ctx := ctx, rerun := false }).ctx (Task.Once none) :=
  rfl

/-- Claim C3: for every run-once task whose slot has already been consumed,
`Runner::handle` hits the `unwrap` on the empty slot and panics instead of
returning normally or silently doing nothing. -/
theorem C3_once_empty_slot_panics {σ τ : Type} (self : Runner)
    (pack : Task σ τ → τ) (ctx : PoolContext τ) (fuel : Nat) :
    Runner.handle self pack ctx (Task.Once (none : Option (Handle τ → Handle τ))) fuel
      = HandleResult.panicked ctx :=
  rfl

/-- Claim C6: a fresh `RunnerFactory` has spin budget 4; `produce` returns
a Runner with the currently configured budget of the factory; and because a
produced Runner is an independent value carrying its own copy of the
budget, `set_max_inplace_spin` changes only the factory (hence Runners
produced afterwards), never an already-produced Runner. -/
theorem C6_factory_budget_configuration :
    RunnerFactory.new.max_inplace_spin = 4
    ∧ (∀ fa : RunnerFactory, (fa.produce).max_inplace_spin = fa.max_inplace_spin)
    ∧ (∀ (fa : RunnerFactory) (n : Nat),
        ((fa.set_max_inplace_spin n).produce).max_inplace_spin = n)
    ∧ (∀ (fa : RunnerFactory) (n : Nat),
        (fa.produce).max_inplace_spin = fa.max_inplace_spin
          ∧ ((fa.set_max_inplace_spin n).produce).max_inplace_spin = n
          ∧ ((fa.set_max_inplace_spin n).set_max_inplace_spin fa.max_inplace_spin).produce
              = fa.produce) :=
  ⟨rfl, fun _ => rfl, fun _ _ => rfl, fun _ _ => ⟨rfl, rfl, rfl⟩⟩

/-- Claim C8: `spawn_once` / `spawn_mut` have identical effect at the
Execution Handle, the Remote handle and the Pool facade: each call appends
exactly one task to the backing queue — the closure wrapped as
`Once (some ·)` respectively `Mut` — and changes nothing else (the
rerun flag of the handle in particular is untouched). -/
theorem C8_spawn_entry_points_agree {σ τ : Type} (h : Handle (Task σ τ))
    (rem : Remote (Task σ τ)) (p : ThreadPool (Task σ τ))
    (t : Handle τ → Handle τ) (f : σ → Handle τ → σ × Handle τ) (st : σ) :
    (h.spawn_once t).ctx.queue = h.ctx.queue ++ [Task.Once (some t)]
    ∧ (h.spawn_once t).rerun = h.rerun
    ∧ (rem.spawn_once t).remote.ctx.queue
        = rem.remote.ctx.queue ++ [Task.Once (some t)]
    ∧ (p.spawn_once t).global.queue = p.global.queue ++ [Task.Once (some t)]
    ∧ (h.spawn_mut f st).ctx.queue = h.ctx.queue ++ [Task.Mut f st]
    ∧ (h.spawn_mut f st).rerun = h.rerun
    ∧ (rem.spawn_mut f st).remote.ctx.queue
        = rem.remote.ctx.queue ++ [Task.Mut f st]
    ∧ (p.spawn_mut f st).global.queue = p.global.queue ++ [Task.Mut f st] :=
  ⟨rfl, rfl, rfl, rfl, rfl, rfl, rfl, rfl⟩

end Callback
